import Mathlib

/-
  Shallow embedding of the Blue Book PDF analyzer (src/the-blue-book-v1.py).
  Strings are modeled as Lean String (a structure over List Char).  The fixed
  regular expressions of the source are translated into explicit character
  scanning functions with the same backtracking behaviour.  Python exceptions
  are modeled with Except; a missing value (Python None) with Option.
-/

set_option linter.unusedVariables false

/-- ASCII letter, the regex class A-Za-z. -/
def asciiAlpha (c : Char) : Bool := ('A' ≤ c && c ≤ 'Z') || ('a' ≤ c && c ≤ 'z')

/-- Whitespace as matched by the regex class backslash-s on a Python str and as
    stripped by str.strip: the ASCII whitespace characters 09-0d and 20, the
    separators 1c-1f, and the Unicode whitespace 85, a0, 1680, 2000-200a, 2028,
    2029, 202f, 205f and 3000 (the two sets coincide in CPython). -/
def pySpace (c : Char) : Bool :=
  ('\x09' ≤ c && c ≤ '\x0d') || c == ' ' || ('\x1c' ≤ c && c ≤ '\x1f') ||
    c == '\x85' || c == '\xa0' || c == '\u1680' ||
    ('\u2000' ≤ c && c ≤ '\u200a') || c == '\u2028' || c == '\u2029' ||
    c == '\u202f' || c == '\u205f' || c == '\u3000'

/-- The non-ASCII letters that the class A-Za-z additionally matches under
    re.IGNORECASE: the dotted and dotless i of 0130 and 0131, the long s of
    017f, and the kelvin sign of 212a. -/
def extraLetter (c : Char) : Bool :=
  c == '\u0130' || c == '\u0131' || c == '\u017f' || c == '\u212a'

/-- The regex character class of the name captures, A-Za-z backslash-s under
    re.IGNORECASE: ASCII letters, their four further case-insensitive matches,
    or whitespace. -/
def nameChar (c : Char) : Bool := asciiAlpha c || extraLetter c || pySpace c

/-- The regex class backslash-d, ASCII digits. -/
def digitB (c : Char) : Bool := '0' ≤ c && c ≤ '9'

/-- Case-insensitive literal match of a label at the head of the text
    (re.IGNORECASE over the fixed ASCII labels of the source); returns the rest
    of the text after the label when the label matches. -/
def matchLabelCI : List Char → List Char → Option (List Char)
  | [], l => some l
  | _ :: _, [] => none
  | a :: as, c :: cs => if a.toLower == c.toLower then matchLabelCI as cs else none

/-- The optional colon after a label (the greedy colon-question in the patterns).
    For the patterns of the source the regex alternative of not consuming a
    present colon can never lead to a match, because a colon is neither
    whitespace, a letter, nor a digit, so consuming it when present is faithful. -/
def colonOpt : List Char → List Char
  | ':' :: rest => rest
  | l => l

/-- python str.strip over lists: the whitespace characters of pySpace are
    removed from both ends. -/
def pyStripL (l : List Char) : List Char :=
  ((l.dropWhile pySpace).reverse.dropWhile pySpace).reverse

/-- str.strip on strings. -/
def pyStrip (s : String) : String := String.mk (pyStripL s.data)

/-- re.search: try a match attempt at every position of the text, left to right,
    also at the final position, and return the first success. -/
def searchScan {α : Type} (f : List Char → Option α) : List Char → Option α
  | [] => f []
  | c :: cs =>
    match f (c :: cs) with
    | some r => some r
    | none => searchScan f cs

/-- Match attempt, at one position, for one of the name patterns of the source:
    a label alternation, an optional colon, greedy whitespace, then the capture
    group of one or more characters of the class cls (letters or whitespace),
    with re.IGNORECASE.  Returns capture group 1.  The greedy whitespace star
    first consumes the whole whitespace run; if no class character follows it,
    the regex backtracks by one whitespace character, which then forms the whole
    group on its own (whitespace belongs to the class). -/
def tryNameAt (labels : List (List Char)) (cls : Char → Bool) (l : List Char) :
    Option (List Char) :=
  labels.findSome? fun lab =>
    match matchLabelCI lab l with
    | some r0 =>
      let r1 := colonOpt r0
      let t := (r1.dropWhile pySpace).takeWhile cls
      if t.isEmpty then
        match (r1.takeWhile pySpace).reverse with
        | c :: _ => if cls c then some [c] else none
        | [] => none
      else some t
    | none => none

/-- The alternatives, in greedy order, for matching one or two digits:
    first two digits, then one digit; each paired with the remaining text. -/
def d12Alts : List Char → List (List Char × List Char)
  | [] => []
  | [a] => if digitB a then [([a], [])] else []
  | a :: b :: rest =>
    (if digitB a && digitB b then [([a, b], rest)] else []) ++
      (if digitB a then [([a], b :: rest)] else [])

/-- Exactly four digits, the year part of the date capture. -/
def year4 : List Char → Option (List Char)
  | c1 :: c2 :: c3 :: c4 :: _ =>
    if digitB c1 && digitB c2 && digitB c3 && digitB c4 then some [c1, c2, c3, c4]
    else none
  | _ => none

/-- The literal slash of the date pattern: continue with the rest of the text
    when it starts with a slash, otherwise fail. -/
def slashThen {β : Type} (l : List Char) (f : List Char → Option β) : Option β :=
  match l with
  | '/' :: r => f r
  | _ => none

/-- Continuation of the date capture after the month digits: a slash and then
    exactly four year digits; d1 holds the day digits already read, q.1 the
    month digits. -/
def monthK (d1 : List Char) (q : List Char × List Char) : Option (List Char) :=
  slashThen q.2 fun r4 =>
    match year4 r4 with
    | some y => some (d1 ++ '/' :: q.1 ++ '/' :: y)
    | none => none

/-- Continuation of the date capture after the day digits: a slash, the month
    digits, a slash, and the year digits. -/
def dayK (p : List Char × List Char) : Option (List Char) :=
  slashThen p.2 fun r2 => (d12Alts r2).findSome? (monthK p.1)

/-- Backtracking match of the date capture (one or two digits, slash, one or two
    digits, slash, four digits) at the head of the text; the first alternative in
    greedy order that completes wins.  Returns the captured text. -/
def dateCore (l : List Char) : Option (List Char) :=
  (d12Alts l).findSome? dayK

/-- Match attempt, at one position, for one of the date patterns of the source:
    a label alternation, an optional colon, greedy whitespace, then the date
    capture, with re.IGNORECASE.  Returns capture group 1. -/
def tryDateAt (labels : List (List Char)) (l : List Char) : Option (List Char) :=
  labels.findSome? fun lab =>
    match matchLabelCI lab l with
    | some r0 => dateCore ((colonOpt r0).dropWhile pySpace)
    | none => none

/-- re.search of one of the name patterns over the whole reply, group 1. -/
def re_search_name (labels : List String) (s : String) : Option String :=
  match searchScan (tryNameAt (labels.map String.data) nameChar) s.data with
  | some g => some (String.mk g)
  | none => none

/-- re.search of one of the date patterns over the whole reply, group 1. -/
def re_search_date (labels : List String) (s : String) : Option String :=
  match searchScan (tryDateAt (labels.map String.data)) s.data with
  | some g => some (String.mk g)
  | none => none

/-- The literal token of the trade segmentation pattern (case-sensitive). -/
def tradeTok : List Char := "Trade:".data

/-- Does pat occur literally at the head of l. -/
def leadsWith : List Char → List Char → Bool
  | [], _ => true
  | _ :: _, [] => false
  | a :: as, c :: cs => a == c && leadsWith as cs

/-- Does the trade token occur at this position. -/
def tradeAt (l : List Char) : Bool := leadsWith tradeTok l

/-- The dollar anchor without re.MULTILINE: end of the text, or the position just
    before a final newline. -/
def dollarAt (l : List Char) : Bool := l.isEmpty || l == ['\n']

/-- The lookahead of the trade segmentation pattern: the trade token or dollar. -/
def stopAt (l : List Char) : Bool := tradeAt l || dollarAt l

/-- Length of the minimal extension of the lazy dot-star until the lookahead
    (trade token or dollar) holds; with re.DOTALL the dot also crosses newlines. -/
def chunkLen : List Char → Nat
  | [] => 0
  | c :: cs => if stopAt (c :: cs) then 0 else chunkLen cs + 1

/-- re.findall of the two-group trade segmentation pattern with re.DOTALL: one
    PAIR of capture groups per match (the chunk, and the text matched inside the
    lookahead), scanning left to right and resuming at each match end.  The fuel
    argument stays at least the text length at every call: every recursive call
    spends one fuel and strictly shortens the text (a match consumes at least the
    six token characters), so the zero-fuel line is never taken when starting
    from findallTrades. -/
def findallTradesGo : Nat → List Char → List (List Char × List Char)
  | _, [] => []
  | 0, _ :: _ => []
  | n + 1, c :: cs =>
    if tradeAt (c :: cs) then
      (tradeTok ++ ((c :: cs).drop 6).take (chunkLen ((c :: cs).drop 6)),
        if tradeAt (((c :: cs).drop 6).drop (chunkLen ((c :: cs).drop 6))) then tradeTok
        else []) ::
        findallTradesGo n (((c :: cs).drop 6).drop (chunkLen ((c :: cs).drop 6)))
    else findallTradesGo n cs

/-- trades_section of the source: the full findall result. -/
def findallTrades (l : List Char) : List (List Char × List Char) :=
  findallTradesGo l.length l

/-- One entry of page_mappings: (uploaded_file.name, page_num, page_text). -/
structure PageRecord where
  file_name : String
  page_num : Nat
  page_text : String
deriving DecidableEq

/-- One value of the trades dictionary: resources and page citations. -/
structure TradeEntry where
  resources : List String
  pages : List String
deriving DecidableEq

/-- The result dictionary of parse_gemini_response; trades models the
    insertion-ordered Python dict as an association list with unique keys.
    The dict is initialized with the keys down to project_end_date.  The
    extraction loop writes each match under the KEY OF THE PATTERNS DICT: for
    the four names that key exists in the result dict, but the date patterns
    are keyed start_date and end_date, so a date match INSERTS A NEW KEY (an
    Option field here, none when the key is absent) and the two project keys
    keep their initial empty strings forever. -/
structure AnalysisResult where
  contractor : String
  architect : String
  designer : String
  client : String
  trades : List (String × TradeEntry)
  project_start_date : String
  project_end_date : String
  start_date : Option String
  end_date : Option String
deriving DecidableEq

/-- The Python exceptions the embedded code can raise. -/
inductive PyError where
  | typeError
  | attributeError
  | indexError
  | keyError
deriving DecidableEq

/-- parse_gemini_response from the source.  A missing reply (None) and the empty
    reply return None.  Each of the six scalar fields is the stripped first match
    of its fixed pattern, or the empty string.  The trade extraction calls
    re.findall with a TWO-group pattern, so trades_section is a list of tuples;
    the first loop iteration applies re.search to a tuple, which raises
    TypeError.  Hence any reply containing the trade token makes the function
    raise, and otherwise the trades dict stays empty.  The date captures land
    under the new dict keys start_date and end_date (the patterns keys), never
    under project_start_date and project_end_date. -/
def parse_gemini_response (response : Option String) (page_mappings : List PageRecord) :
    Except PyError (Option AnalysisResult) :=
  match response with
  | none => Except.ok none
  | some s =>
    if s = "" then Except.ok none
    else
      let contractor := match re_search_name ["Contractor", "Builder"] s with
        | some g => pyStrip g
        | none => ""
      let architect := match re_search_name ["Architect"] s with
        | some g => pyStrip g
        | none => ""
      let designer := match re_search_name ["Designer"] s with
        | some g => pyStrip g
        | none => ""
      let client := match re_search_name ["Client", "Owner"] s with
        | some g => pyStrip g
        | none => ""
      let start_date := match re_search_date ["Start Date", "Commencement"] s with
        | some g => some (pyStrip g)
        | none => none
      let end_date := match re_search_date ["End Date", "Completion"] s with
        | some g => some (pyStrip g)
        | none => none
      match findallTrades s.data with
      | [] =>
        Except.ok (some
          { contractor := contractor
            architect := architect
            designer := designer
            client := client
            trades := []
            project_start_date := ""
            project_end_date := ""
            start_date := start_date
            end_date := end_date })
      | _ :: _ => Except.error PyError.typeError

/-- Parsed JSON values, the possible results of response.json(). -/
inductive JVal where
  | jnull
  | jbool (b : Bool)
  | jnum (n : Int)
  | jstr (s : String)
  | jarr (elems : List JVal)
  | jobj (fields : List (String × JVal))

/-- Key lookup in a parsed JSON object.  The list models the Python dict built
    by json parsing, whose keys are unique (a duplicate key in the raw JSON text
    keeps only the last value; we model the resulting dict directly). -/
def lookupF : List (String × JVal) → String → Option JVal
  | [], _ => none
  | (k, v) :: rest, key => if k == key then some v else lookupF rest key

/-- python dict.get(key, default); attribute access on a non-dict raises. -/
def pyGetD (v : JVal) (k : String) (dflt : JVal) : Except PyError JVal :=
  match v with
  | JVal.jobj fs =>
    match lookupF fs k with
    | some w => Except.ok w
    | none => Except.ok dflt
  | _ => Except.error PyError.attributeError

/-- python subscript with 0: first element of a list, first character of a
    string; empty sequences raise IndexError, a dict raises KeyError (0 is not a
    key of any dict reachable here), other values raise TypeError. -/
def pyIndex0 (v : JVal) : Except PyError JVal :=
  match v with
  | JVal.jarr (x :: _) => Except.ok x
  | JVal.jarr [] => Except.error PyError.indexError
  | JVal.jstr s =>
    match s.data with
    | c :: _ => Except.ok (JVal.jstr (String.mk [c]))
    | [] => Except.error PyError.indexError
  | JVal.jobj _ => Except.error PyError.keyError
  | _ => Except.error PyError.typeError

/-- The success-path parsing chain of call_gemini_api over the parsed body:
    body.get(candidates, one-empty-dict-list)[0].get(content, empty-dict)
    .get(parts, one-empty-dict-list)[0].get(text, empty-string),
    with exception propagation. -/
def extract_reply (body : JVal) : Except PyError JVal :=
  match pyGetD body "candidates" (JVal.jarr [JVal.jobj []]) with
  | Except.error e => Except.error e
  | Except.ok c =>
    match pyIndex0 c with
    | Except.error e => Except.error e
    | Except.ok c0 =>
      match pyGetD c0 "content" (JVal.jobj []) with
      | Except.error e => Except.error e
      | Except.ok ct =>
        match pyGetD ct "parts" (JVal.jarr [JVal.jobj []]) with
        | Except.error e => Except.error e
        | Except.ok p =>
          match pyIndex0 p with
          | Except.error e => Except.error e
          | Except.ok p0 => pyGetD p0 "text" (JVal.jstr "")

/-- Outcome of the one outbound HTTP request of call_gemini_api, at the
    boundary of the opaque network: the request itself raised, or a response
    arrived with a status code and a body (none when the body is not valid JSON,
    so that response.json() raises). -/
inductive HttpOutcome where
  | netError
  | response (status : Nat) (body : Option JVal)

/-- call_gemini_api from the source: one request; response.raise_for_status
    raises on a 4xx or 5xx status; then the parsing chain runs on the JSON body.
    Every exception is caught by the try-except, an error message is shown, and
    None is returned. -/
def call_gemini_api (o : HttpOutcome) : Option JVal :=
  match o with
  | HttpOutcome.netError => none
  | HttpOutcome.response status body =>
    if 400 ≤ status ∧ status < 600 then none
    else
      match body with
      | none => none
      | some b =>
        match extract_reply b with
        | Except.ok v => some v
        | Except.error _ => none

/-- Python truthiness over parsed JSON values. -/
def pyTruthy : JVal → Bool
  | JVal.jnull => false
  | JVal.jbool b => b
  | JVal.jnum n => n != 0
  | JVal.jstr s => s != ""
  | JVal.jarr xs => !xs.isEmpty
  | JVal.jobj fs => !fs.isEmpty

/-- The Analyze PDFs branch of the module-level pipeline, from the API call on:
    the reply of call_gemini_api is tested for truthiness; only a truthy reply is
    passed to parse_gemini_response.  A result of none means the branch showed an
    error message and parse_gemini_response was never invoked.  A truthy reply
    that is not a string would make the uncaught re.search raise TypeError. -/
def analyze_branch (o : HttpOutcome) (page_mappings : List PageRecord) :
    Option (Except PyError (Option AnalysisResult)) :=
  match call_gemini_api o with
  | none => none
  | some v =>
    if pyTruthy v then
      some
        (match v with
        | JVal.jstr r => parse_gemini_response (some r) page_mappings
        | _ => Except.error PyError.typeError)
    else none

/-- An uploaded document as the Text Extractor sees it: its name and, per page
    in order, the result of page.extract_text() (none when the pdf library finds
    no text).  The pdf library itself is an external collaborator and is
    abstracted by these per-page results. -/
structure PDFDoc where
  name : String
  pages : List (Option String)

/-- The per-document loop of extract_pdf_text: page numbers count from n; a page
    whose extracted text is falsy (absent or empty) is skipped silently, a page
    with text appends a bracketed page marker plus the text to the running text
    and one record to page_mappings. -/
def extract_doc (docName : String) : Nat → List (Option String) → String × List PageRecord
  | _, [] => ("", [])
  | n, pt :: rest =>
    let res := extract_doc docName (n + 1) rest
    match pt with
    | some t =>
      if t = "" then res
      else ("\n[Page " ++ toString n ++ "]\n" ++ t ++ res.1, ⟨docName, n, t⟩ :: res.2)
    | none => res

/-- extract_pdf_text from the source: per uploaded file one (name, text) pair,
    and the flat record list across all files, enumerating pages from 1. -/
def extract_pdf_text : List PDFDoc → List (String × String) × List PageRecord
  | [] => ([], [])
  | f :: fs =>
    let d := extract_doc f.name 1 f.pages
    let r := extract_pdf_text fs
    ((f.name, d.1) :: r.1, d.2 ++ r.2)

/-- Pairs each element with its position, counting from n. -/
def enumFrom {α : Type} (n : Nat) : List α → List (Nat × α)
  | [] => []
  | a :: as => (n, a) :: enumFrom (n + 1) as

/-- Modelled on the claim wording for the Text Extractor: every page whose
    extracted text is non-empty contributes exactly one PageRecord carrying the
    document name, its 1-based page number and its text, in page order, document
    after document; other pages contribute nothing. -/
def specPageRecords : List PDFDoc → List PageRecord
  | [] => []
  | f :: fs =>
    (enumFrom 1 f.pages).filterMap
        (fun p =>
          match p.2 with
          | some t => if t = "" then none else some ⟨f.name, p.1, t⟩
          | none => none) ++
      specPageRecords fs

/-- Modelled on the claim wording for the date capture: a D-slash-D-slash-YYYY
    shaped token read off at this position, that is one or two digits, a slash,
    one or two digits, a slash, and four digits. -/
def claimDateCore (l : List Char) : Option (List Char) :=
  if 1 ≤ (l.takeWhile digitB).length ∧ (l.takeWhile digitB).length ≤ 2 then
    slashThen (l.dropWhile digitB) fun r2 =>
      if 1 ≤ (r2.takeWhile digitB).length ∧ (r2.takeWhile digitB).length ≤ 2 then
        slashThen (r2.dropWhile digitB) fun r4 =>
          if 4 ≤ (r4.takeWhile digitB).length then
            some
              (l.takeWhile digitB ++
                '/' :: r2.takeWhile digitB ++ '/' :: (r4.takeWhile digitB).take 4)
          else none
      else none
  else none

/-- Modelled on the claim wording: a case-insensitive occurrence of one of the
    labels at this position (the colon after the label written in the claim is
    optional in the source pattern), followed, after the optional colon and any
    whitespace, by a date-shaped token. -/
def claimDateAt (labels : List (List Char)) (l : List Char) : Option (List Char) :=
  labels.findSome? fun lab =>
    match matchLabelCI lab l with
    | some r0 => claimDateCore ((colonOpt r0).dropWhile pySpace)
    | none => none

/-- Modelled on the claim wording: the token of the FIRST (leftmost)
    case-insensitive label-and-date match in the reply; the empty string when no
    position matches. -/
def claimFirstDate (labels : List String) (s : String) : String :=
  match
    ((List.range (s.data.length + 1)).filterMap fun i =>
        claimDateAt (labels.map String.data) (s.data.drop i)).head? with
  | some t => String.mk t
  | none => ""

/-- True when the head of the list is not whitespace (or the list is empty). -/
def noWsHead (l : List Char) : Bool :=
  match l with
  | [] => true
  | c :: _ => !pySpace c

/-- ASCII whitespace, the whitespace the claim wording admits inside a name
    (every other character is claimed to be truncated away). -/
def asciiWs (c : Char) : Bool :=
  c == ' ' || c == '\t' || c == '\n' || c == '\r' || c == '\x0b' || c == '\x0c'

/-- True when the head of the list is not ASCII whitespace (or the list is
    empty). -/
def noAsciiWsHead (l : List Char) : Bool :=
  match l with
  | [] => true
  | c :: _ => !asciiWs c

/-- Modelled on the claim wording for the name-field invariant AS STATED: the
    field is empty, or consists only of ASCII letters and whitespace with no
    leading and no trailing whitespace character.  The program violates this:
    its capture class also admits four non-ASCII letters and non-ASCII
    whitespace. -/
def goodNameB (f : String) : Bool :=
  f.data.all (fun c => asciiAlpha c || asciiWs c) &&
    noAsciiWsHead f.data && noAsciiWsHead f.data.reverse

/-- Modelled on the amended claim wording: the field is empty, or consists only
    of characters of the source capture class (ASCII letters, the four further
    letters the class matches case-insensitively, or whitespace) with no
    leading and no trailing whitespace character. -/
def fieldClassB (f : String) : Bool :=
  f.data.all nameChar && noWsHead f.data && noWsHead f.data.reverse

/-- Modelled on the claim wording for the Model Client: the body is a JSON
    object that lacks one of the expected keys somewhere on the path
    candidates-0-content-parts-0-text, every step above the missing key having
    the documented shape. -/
def lacksKeyB (body : JVal) : Bool :=
  match body with
  | JVal.jobj fs =>
    match lookupF fs "candidates" with
    | none => true
    | some (JVal.jarr (c0 :: _)) =>
      match c0 with
      | JVal.jobj gs =>
        match lookupF gs "content" with
        | none => true
        | some (JVal.jobj hs) =>
          match lookupF hs "parts" with
          | none => true
          | some (JVal.jarr (p0 :: _)) =>
            match p0 with
            | JVal.jobj ks => (lookupF ks "text").isNone
            | _ => false
          | _ => false
        | _ => false
      | _ => false
    | _ => false
  | _ => false

/-- Does the literal trade token occur anywhere in the text (case-sensitive
    substring containment). -/
def containsTradeTok : List Char → Bool
  | [] => false
  | c :: cs => tradeAt (c :: cs) || containsTradeTok cs

/-- Did the field extractor raise. -/
def isErrB : Except PyError (Option AnalysisResult) → Bool
  | Except.error _ => true
  | Except.ok _ => false

/-- Did the field extractor raise precisely a TypeError. -/
def errTypeB : Except PyError (Option AnalysisResult) → Bool
  | Except.error PyError.typeError => true
  | _ => false

/-! Helper lemmas. -/

theorem takeWhile_length_le {α : Type} (p : α → Bool) : ∀ l : List α, (l.takeWhile p).length ≤ l.length
  | [] => Nat.le_refl _
  | a :: l => by
    rw [List.takeWhile_cons]
    split
    · simpa using takeWhile_length_le p l
    · simp

theorem head?_mem {α : Type} {l : List α} {a : α} (h : l.head? = some a) : a ∈ l := by
  cases l with
  | nil => simp at h
  | cons b t => simp at h; simp [h]

theorem dropWhile_head_false {α : Type} (p : α → Bool) :
    ∀ (l : List α) (c : α) (cs : List α), l.dropWhile p = c :: cs → p c = false
  | [], c, cs, h => by simp at h
  | a :: l, c, cs, h => by
    rw [List.dropWhile_cons] at h
    split at h
    · exact dropWhile_head_false p l c cs h
    · cases h
      simp_all

theorem dropWhile_suffix {α : Type} (p : α → Bool) :
    ∀ l : List α, ∃ t, t ++ l.dropWhile p = l
  | [] => ⟨[], rfl⟩
  | a :: l => by
    rw [List.dropWhile_cons]
    split
    · obtain ⟨t, ht⟩ := dropWhile_suffix p l
      exact ⟨a :: t, by simp [ht]⟩
    · exact ⟨[], rfl⟩

theorem takeWhile_nil_dropWhile {α : Type} {p : α → Bool} {l : List α}
    (h : l.takeWhile p = []) : l.dropWhile p = l := by
  cases l with
  | nil => rfl
  | cons a t =>
    rw [List.takeWhile_cons] at h
    rw [List.dropWhile_cons]
    split at h
    · simp at h
    · simp_all

/-! C7: empty or absent reply. -/

/-- C7: for every PageRecord sequence, a missing (None) reply and the empty
    reply both make the Field Extractor return None without raising. -/
theorem c7_empty_or_absent_reply (pm : List PageRecord) :
    parse_gemini_response none pm = Except.ok none ∧
      parse_gemini_response (some "") pm = Except.ok none := by
  constructor <;> rfl

/-! C1, C3, C4: the trade path raises. -/

/-- C1: on the Scenario D reply (two trades back to back, empty PageRecord
    sequence) the Field Extractor does not return a two-entry trades mapping; it
    raises TypeError, because the two-group findall yields tuples and re.search
    is applied to the first tuple. -/
theorem c1_scenario_d_raises :
    parse_gemini_response
        (some "Trade: Plumbing\nResources: pipes\nTrade: HVAC\nResources: ducts\n") [] =
      Except.error PyError.typeError := by
  rfl

/-- C3: on the Scenario A reply with its single PageRecord the Field Extractor
    raises TypeError in the trade loop instead of returning a result with
    contractor, client and resources filled in. -/
theorem c3_scenario_a_raises :
    parse_gemini_response
        (some "Contractor: Acme Builders\nClient: Jane Doe\nTrade: Electrical\nResources: wiring, panels\n")
        [⟨"spec.pdf", 3, "... electrical rough-in ..."⟩] =
      Except.error PyError.typeError := by
  rfl

/-- C4: on a reply with one trade and a PageRecord whose text contains that
    trade name, the Field Extractor raises TypeError before the page citation
    scan is ever reached, so no citation is appended. -/
theorem c4_citation_reply_raises :
    parse_gemini_response (some "Trade: Electrical\nResources: wiring\n")
        [⟨"spec.pdf", 3, "electrical rough-in on level two"⟩] =
      Except.error PyError.typeError := by
  rfl

/-! C9: TypeError exactly on the replies containing the trade token. -/

theorem findallTradesGo_eq_nil_iff :
    ∀ (n : Nat) (l : List Char), l.length ≤ n →
      (findallTradesGo n l = [] ↔ containsTradeTok l = false)
  | 0, [], _ => by simp [findallTradesGo, containsTradeTok]
  | 0, c :: cs, h => by simp at h
  | n + 1, [], _ => by simp [findallTradesGo, containsTradeTok]
  | n + 1, c :: cs, h => by
    rw [findallTradesGo]
    unfold containsTradeTok
    cases ht : tradeAt (c :: cs) with
    | true =>
      rw [if_pos rfl]
      simp
    | false =>
      rw [if_neg (by simp)]
      simp only [Bool.false_or]
      exact findallTradesGo_eq_nil_iff n cs (by simpa using Nat.le_of_succ_le_succ h)

theorem findallTrades_eq_nil_iff (l : List Char) :
    findallTrades l = [] ↔ containsTradeTok l = false :=
  findallTradesGo_eq_nil_iff l.length l (Nat.le_refl _)

/-- C9: for every reply, the Field Extractor raises — and the exception is the
    TypeError from applying re.search to a tuple of the two-group findall —
    exactly when the reply contains the literal substring of the trade token;
    without that substring it returns normally. -/
theorem c9_typeerror_iff_trade (s : String) (pm : List PageRecord) :
    isErrB (parse_gemini_response (some s) pm) = containsTradeTok s.data ∧
      errTypeB (parse_gemini_response (some s) pm) = containsTradeTok s.data := by
  by_cases hs : s = ""
  · subst hs
    constructor <;> rfl
  · rw [parse_gemini_response]
    simp only [if_neg hs]
    cases hf : findallTrades s.data with
    | nil =>
      have := (findallTrades_eq_nil_iff s.data).mp hf
      rw [this]
      constructor <;> rfl
    | cons p rest =>
      have : containsTradeTok s.data = true := by
        cases hc : containsTradeTok s.data with
        | true => rfl
        | false => rw [(findallTrades_eq_nil_iff s.data).mpr hc] at hf; cases hf
      rw [this]
      constructor <;> rfl
/-! C6: network, status and malformed-response failures. -/

/-- C6: on a network error, a 4xx or 5xx status, or a malformed (non-JSON) body,
    the Model Client catches the exception and returns None, and in the pipeline
    branch the Field Extractor is never invoked (the branch result is none). -/
theorem c6_api_error_no_parse (o : HttpOutcome) (pm : List PageRecord)
    (h : o = HttpOutcome.netError ∨
        (∃ st body, o = HttpOutcome.response st body ∧ 400 ≤ st ∧ st < 600) ∨
        ∃ st, o = HttpOutcome.response st none) :
    call_gemini_api o = none ∧ analyze_branch o pm = none := by
  rcases h with h | ⟨st, body, h, h4, h6⟩ | ⟨st, h⟩
  · subst h; constructor <;> rfl
  · subst h
    have hc : call_gemini_api (HttpOutcome.response st body) = none := by
      simp only [call_gemini_api]
      rw [if_pos ⟨h4, h6⟩]
    refine ⟨hc, ?_⟩
    simp only [analyze_branch, hc]
  · subst h
    have hc : call_gemini_api (HttpOutcome.response st none) = none := by
      simp only [call_gemini_api]
      split <;> rfl
    refine ⟨hc, ?_⟩
    simp only [analyze_branch, hc]

/-- C6 witness: Scenario C, an HTTP 500 response. -/
theorem c6_api_error_no_parse_witness :
    call_gemini_api (HttpOutcome.response 500 (some (JVal.jobj []))) = none ∧
      analyze_branch (HttpOutcome.response 500 (some (JVal.jobj []))) [] = none :=
  c6_api_error_no_parse _ []
    (Or.inr (Or.inl ⟨500, some (JVal.jobj []), rfl, by omega, by omega⟩))

/-! C5: missing keys on the success path degrade to the empty string. -/

theorem extract_reply_missing_key {b : JVal} (hb : lacksKeyB b = true) :
    extract_reply b = Except.ok (JVal.jstr "") := by
  cases b with
  | jobj fs =>
    rw [lacksKeyB] at hb
    cases hc : lookupF fs "candidates" with
    | none => simp [extract_reply, pyGetD, pyIndex0, lookupF, hc]
    | some cv =>
      rw [hc] at hb
      try dsimp only at hb
      cases cv with
      | jarr elems =>
        cases elems with
        | nil => simp at hb
        | cons c0 rest =>
          try dsimp only at hb
          cases c0 with
          | jobj gs =>
            try dsimp only at hb
            cases hct : lookupF gs "content" with
            | none => simp [extract_reply, pyGetD, pyIndex0, lookupF, hc, hct]
            | some ctv =>
              rw [hct] at hb
              try dsimp only at hb
              cases ctv with
              | jobj hs =>
                try dsimp only at hb
                cases hp : lookupF hs "parts" with
                | none => simp [extract_reply, pyGetD, pyIndex0, lookupF, hc, hct, hp]
                | some pv =>
                  rw [hp] at hb
                  try dsimp only at hb
                  cases pv with
                  | jarr pelems =>
                    cases pelems with
                    | nil => simp at hb
                    | cons p0 prest =>
                      try dsimp only at hb
                      cases p0 with
                      | jobj ks =>
                        try dsimp only at hb
                        cases hk : lookupF ks "text" with
                        | none =>
                          simp [extract_reply, pyGetD, pyIndex0, lookupF, hc, hct, hp, hk]
                        | some _ => rw [hk] at hb; simp at hb
                      | jnull => simp at hb
                      | jbool b => simp at hb
                      | jnum n => simp at hb
                      | jstr s => simp at hb
                      | jarr a => simp at hb
                  | jnull => simp at hb
                  | jbool b => simp at hb
                  | jnum n => simp at hb
                  | jstr s => simp at hb
                  | jobj a => simp at hb
              | jnull => simp at hb
              | jbool b => simp at hb
              | jnum n => simp at hb
              | jstr s => simp at hb
              | jarr a => simp at hb
          | jnull => simp at hb
          | jbool b => simp at hb
          | jnum n => simp at hb
          | jstr s => simp at hb
          | jarr a => simp at hb
      | jnull => simp at hb
      | jbool b => simp at hb
      | jnum n => simp at hb
      | jstr s => simp at hb
      | jobj a => simp at hb
  | jnull => simp [lacksKeyB] at hb
  | jbool b => simp [lacksKeyB] at hb
  | jnum n => simp [lacksKeyB] at hb
  | jstr s => simp [lacksKeyB] at hb
  | jarr a => simp [lacksKeyB] at hb

/-- C5: for every success response (status below 400) whose JSON body lacks one
    of the expected keys on the documented path, the Model Client returns the
    empty string, not None and not an exception. -/
theorem c5_missing_key_empty_reply (st : Nat) (b : JVal) (hst : st < 400)
    (hb : lacksKeyB b = true) :
    call_gemini_api (HttpOutcome.response st (some b)) = some (JVal.jstr "") := by
  simp only [call_gemini_api]
  rw [if_neg (by omega), extract_reply_missing_key hb]

/-- C5 witness: status 200 with a body lacking the candidates key. -/
theorem c5_missing_key_empty_reply_witness :
    call_gemini_api (HttpOutcome.response 200 (some (JVal.jobj []))) =
      some (JVal.jstr "") :=
  c5_missing_key_empty_reply 200 (JVal.jobj []) (by omega) (by rfl)

/-! C8: one PageRecord per non-empty page. -/

theorem extract_doc_records (docName : String) :
    ∀ (pages : List (Option String)) (n : Nat),
      (extract_doc docName n pages).2 =
        (enumFrom n pages).filterMap fun p =>
          match p.2 with
          | some t => if t = "" then none else some ⟨docName, p.1, t⟩
          | none => none
  | [], n => rfl
  | pt :: rest, n => by
    rw [extract_doc.eq_def, enumFrom, List.filterMap_cons]
    dsimp only
    cases pt with
    | none => exact extract_doc_records docName rest (n + 1)
    | some t =>
      by_cases ht : t = ""
      · simp only [ht]
        simpa using extract_doc_records docName rest (n + 1)
      · simp only [if_neg ht]
        rw [extract_doc_records docName rest (n + 1)]

/-- C8: for every sequence of openable documents, the PageRecord sequence of the
    Text Extractor is exactly one record (document name, 1-based page number,
    page text) per page whose extracted text is non-empty, in page order and
    document order; pages with absent or empty text contribute nothing, so a
    document with zero extractable pages yields zero records, and the function
    is total (no exception). -/
theorem c8_page_records (files : List PDFDoc) :
    (extract_pdf_text files).2 = specPageRecords files := by
  induction files with
  | nil => rfl
  | cons f fs ih =>
    rw [extract_pdf_text, specPageRecords]
    simp only
    rw [extract_doc_records f.name f.pages 1, ih]

/-! C10: charset invariant of the four name fields. -/

theorem searchScan_some {α : Type} (f : List Char → Option α) :
    ∀ (l : List Char) (a : α), searchScan f l = some a → ∃ l', f l' = some a
  | [], a, h => ⟨[], h⟩
  | c :: cs, a, h => by
    rw [searchScan] at h
    cases hf : f (c :: cs) with
    | some r => rw [hf] at h; exact ⟨c :: cs, hf.trans h⟩
    | none => rw [hf] at h; exact searchScan_some f cs a h

theorem dropWhile_mem {α : Type} {p : α → Bool} {l : List α} {c : α}
    (hc : c ∈ l.dropWhile p) : c ∈ l := by
  obtain ⟨t, ht⟩ := dropWhile_suffix p l
  rw [← ht]
  exact List.mem_append.mpr (Or.inr hc)

theorem strip_mem {l : List Char} {c : Char} (hc : c ∈ pyStripL l) : c ∈ l := by
  rw [pyStripL, List.mem_reverse] at hc
  exact dropWhile_mem (List.mem_reverse.mp (dropWhile_mem hc))

theorem noWsHead_dropWhile (l : List Char) : noWsHead (l.dropWhile pySpace) = true := by
  cases h : l.dropWhile pySpace with
  | nil => rfl
  | cons c cs =>
    have := dropWhile_head_false pySpace l c cs h
    simp [noWsHead, this]

theorem noWsHead_strip_reverse (l : List Char) : noWsHead (pyStripL l).reverse = true := by
  rw [pyStripL, List.reverse_reverse]
  exact noWsHead_dropWhile _

theorem noWsHead_strip (l : List Char) : noWsHead (pyStripL l) = true := by
  cases hy : pyStripL l with
  | nil => rfl
  | cons c cs =>
    obtain ⟨t, ht⟩ := dropWhile_suffix pySpace (l.dropWhile pySpace).reverse
    have h2 : pyStripL l ++ t.reverse = l.dropWhile pySpace := by
      have := congrArg List.reverse ht
      rw [List.reverse_append, List.reverse_reverse] at this
      exact this
    rw [hy] at h2
    have h3 : l.dropWhile pySpace = c :: (cs ++ t.reverse) := by rw [← h2]; rfl
    have := dropWhile_head_false pySpace l c (cs ++ t.reverse) h3
    simp [noWsHead, this]

theorem fieldClass_strip {l : List Char} (h : ∀ c ∈ l, nameChar c = true) :
    fieldClassB (String.mk (pyStripL l)) = true := by
  rw [fieldClassB]
  have hd : (String.mk (pyStripL l)).data = pyStripL l := rfl
  rw [hd]
  have h1 : (pyStripL l).all nameChar = true :=
    List.all_eq_true.mpr fun c hc => h c (strip_mem hc)
  rw [h1, noWsHead_strip, noWsHead_strip_reverse]
  rfl

theorem tryNameAt_chars {labels : List (List Char)} {cls : Char → Bool} {l : List Char}
    {g : List Char} (h : tryNameAt labels cls l = some g) : ∀ c ∈ g, cls c = true := by
  rw [tryNameAt] at h
  obtain ⟨lab, _, hlab⟩ := List.exists_of_findSome?_eq_some h
  cases hm : matchLabelCI lab l with
  | none => rw [hm] at hlab; cases hlab
  | some r0 =>
    rw [hm] at hlab
    dsimp only at hlab
    split at hlab
    · split at hlab
      · split at hlab
        · cases hlab
          intro c hc
          simp only [List.mem_singleton] at hc
          subst hc
          assumption
        · cases hlab
      · cases hlab
    · cases hlab
      intro c hc
      exact List.mem_takeWhile_imp hc

theorem parse_ok_fields (s : String) (pm : List PageRecord) (r : AnalysisResult)
    (h : parse_gemini_response (some s) pm = Except.ok (some r)) :
    r = { contractor := match re_search_name ["Contractor", "Builder"] s with
            | some g => pyStrip g
            | none => ""
          architect := match re_search_name ["Architect"] s with
            | some g => pyStrip g
            | none => ""
          designer := match re_search_name ["Designer"] s with
            | some g => pyStrip g
            | none => ""
          client := match re_search_name ["Client", "Owner"] s with
            | some g => pyStrip g
            | none => ""
          trades := []
          project_start_date := ""
          project_end_date := ""
          start_date := match re_search_date ["Start Date", "Commencement"] s with
            | some g => some (pyStrip g)
            | none => none
          end_date := match re_search_date ["End Date", "Completion"] s with
            | some g => some (pyStrip g)
            | none => none } := by
  rw [parse_gemini_response.eq_def] at h
  dsimp only at h
  split at h
  · simp at h
  · split at h
    · simp only [Except.ok.injEq, Option.some.injEq] at h
      exact h.symm
    · simp at h

theorem fieldClass_of_search {labels : List String} {s : String} :
    fieldClassB
        (match re_search_name labels s with
        | some g => pyStrip g
        | none => "") = true := by
  cases hm : re_search_name labels s with
  | none => rfl
  | some g =>
    rw [re_search_name] at hm
    cases hsc : searchScan (tryNameAt (labels.map String.data) nameChar) s.data with
    | none => rw [hsc] at hm; cases hm
    | some gl =>
      rw [hsc] at hm
      dsimp only at hm
      cases hm
      obtain ⟨l', hl'⟩ := searchScan_some _ _ _ hsc
      have hchars := tryNameAt_chars hl'
      dsimp only
      exact fieldClass_strip hchars

/-- C10 counterexample: on the reply with a long s, Architect: \u017ftudio, the
    Field Extractor returns architect \u017ftudio, a non-empty name field that
    contains a non-ASCII letter, refuting the claim as stated (every name field
    empty or ASCII letters and whitespace only). -/
theorem c10_ascii_counterexample :
    parse_gemini_response (some "Architect: \u017ftudio") [] =
        Except.ok (some ⟨"", "\u017ftudio", "", "", [], "", "", none, none⟩) ∧
      goodNameB "\u017ftudio" = false := by
  constructor <;> rfl

/-- C10 (amended): whenever the Field Extractor returns a result, each of the
    four name fields is empty or consists only of characters of the source
    capture class (ASCII letters, the four further letters the class matches
    case-insensitively, or whitespace), with no leading and no trailing
    whitespace character (the captures are limited to the class and stripped). -/
theorem c10_name_field_class (s : String) (pm : List PageRecord) (r : AnalysisResult)
    (h : parse_gemini_response (some s) pm = Except.ok (some r)) :
    (fieldClassB r.contractor && fieldClassB r.architect && fieldClassB r.designer &&
        fieldClassB r.client) = true := by
  rw [parse_ok_fields s pm r h]
  dsimp only
  rw [fieldClass_of_search, fieldClass_of_search, fieldClass_of_search,
    fieldClass_of_search]
  rfl

/-- C10 witness: a reply with a client line. -/
theorem c10_name_field_class_witness :
    (fieldClassB "" && fieldClassB "" && fieldClassB "" && fieldClassB "Jane Doe") =
      true :=
  c10_name_field_class "Client: Jane Doe" []
    ⟨"", "", "", "Jane Doe", [], "", "", none, none⟩ (by rfl)

/-! C2: where the date captures actually go. -/

theorem slashThen_congr {β : Type} {l : List Char} {f g : List Char → Option β}
    (h : ∀ r, f r = g r) : slashThen l f = slashThen l g := by
  rw [slashThen.eq_def, slashThen.eq_def]
  split
  · exact h _
  · rfl

theorem slashThen_ne {β : Type} {a : Char} {r : List Char} {f : List Char → Option β}
    (ha : a ≠ '/') : slashThen (a :: r) f = none := by
  rw [slashThen.eq_def]
  split
  · rename_i r2 heq
    injection heq with h1 h2
    exact absurd h1 ha
  · rfl

theorem slashThen_some {β : Type} {l : List Char} {f : List Char → Option β} {t : β}
    (h : slashThen l f = some t) : ∃ r, l = '/' :: r ∧ f r = some t := by
  rw [slashThen.eq_def] at h
  split at h
  · rename_i r
    exact ⟨r, rfl, h⟩
  · cases h

theorem searchScan_eq {α : Type} (f : List Char → Option α) :
    ∀ l : List Char,
      searchScan f l =
        ((List.range (l.length + 1)).filterMap fun i => f (l.drop i)).head?
  | [] => by
    rw [searchScan]
    have h1 : List.range (List.length ([] : List Char) + 1) = [0] := by
      simp [List.range_succ]
    rw [h1, List.filterMap_cons]
    simp only [List.drop_nil]
    cases hfe : f [] <;> simp [hfe]
  | c :: cs => by
    rw [searchScan, List.length_cons, List.range_succ_eq_map, List.filterMap_cons]
    cases h : f (c :: cs) with
    | some r =>
      have h0 : f (List.drop 0 (c :: cs)) = some r := by simpa using h
      rw [h0]
      rfl
    | none =>
      have h0 : f (List.drop 0 (c :: cs)) = none := by simpa using h
      rw [h0, List.filterMap_map, searchScan_eq f cs]
      rfl

theorem takeWhile_cons_of_ne_nil {α : Type} {p : α → Bool} {l : List α} {d : α} {ds : List α}
    (h : l.takeWhile p = d :: ds) : ∃ l', l = d :: l' ∧ p d = true := by
  cases l with
  | nil => simp at h
  | cons e es =>
    rw [List.takeWhile_cons] at h
    split at h
    · cases h
      exact ⟨es, rfl, by assumption⟩
    · cases h

theorem d12_findSome_eq {β : Type} (K : List Char × List Char → Option β)
    (hK : ∀ d a r, digitB a = true → K (d, a :: r) = none) :
    ∀ l : List Char,
      (d12Alts l).findSome? K =
        if 1 ≤ (l.takeWhile digitB).length ∧ (l.takeWhile digitB).length ≤ 2 then
          K (l.takeWhile digitB, l.dropWhile digitB)
        else none
  | [] => by simp [d12Alts]
  | [a] => by
    by_cases ha : digitB a = true
    · rw [d12Alts, if_pos ha, List.findSome?_cons]
      simp only [List.takeWhile_cons, List.dropWhile_cons, ha, if_true]
      cases hk : K ([a], []) with
      | some b => simp [List.takeWhile_nil, List.dropWhile_nil, hk]
      | none => simp [List.takeWhile_nil, List.dropWhile_nil, hk]
    · rw [d12Alts, if_neg ha]
      simp only [List.takeWhile_cons, ha]
      simp
  | a :: b :: rest => by
    by_cases ha : digitB a = true
    · by_cases hb : digitB b = true
      · rw [d12Alts, if_pos (by simp [ha, hb]), if_pos ha]
        rw [List.singleton_append, List.findSome?_cons]
        have h2 : K ([a], b :: rest) = none := hK [a] b rest hb
        cases ht : rest.takeWhile digitB with
        | nil =>
          have hdw : rest.dropWhile digitB = rest := takeWhile_nil_dropWhile ht
          simp only [List.takeWhile_cons, List.dropWhile_cons, ha, hb, if_true, ht, hdw]
          cases hk : K ([a, b], rest) with
          | some v => simp [hk]
          | none => simp [hk, List.findSome?_cons, h2]
        | cons d ds =>
          obtain ⟨rest', hrest, hd⟩ := takeWhile_cons_of_ne_nil ht
          have hk : K ([a, b], rest) = none := by rw [hrest]; exact hK _ d rest' hd
          simp only [List.takeWhile_cons, ha, hb, if_true, ht]
          rw [if_neg (by simp), hk, List.findSome?_cons, h2]
          rfl
      · rw [d12Alts, if_neg (by simp [hb]), if_pos ha]
        rw [List.nil_append, List.findSome?_cons]
        simp only [List.takeWhile_cons, List.dropWhile_cons, ha, hb, if_true, if_false]
        rw [if_pos (by simp)]
        cases hk : K ([a], b :: rest) with
        | some v => simp [hk]
        | none => simp [hk]
    · rw [d12Alts, if_neg (by simp [ha]), if_neg ha]
      simp only [List.takeWhile_cons, ha]
      simp

theorem year4_eq :
    ∀ l : List Char,
      year4 l =
        if 4 ≤ (l.takeWhile digitB).length then some ((l.takeWhile digitB).take 4)
        else none
  | [] => by simp [year4]
  | [c1] => by
    rw [year4.eq_def]
    have h := takeWhile_length_le digitB [c1]
    rw [if_neg (by simp at h ⊢; omega)]
  | [c1, c2] => by
    rw [year4.eq_def]
    have h := takeWhile_length_le digitB [c1, c2]
    rw [if_neg (by simp at h ⊢; omega)]
  | [c1, c2, c3] => by
    rw [year4.eq_def]
    have h := takeWhile_length_le digitB [c1, c2, c3]
    rw [if_neg (by simp at h ⊢; omega)]
  | c1 :: c2 :: c3 :: c4 :: r => by
    rw [year4]
    by_cases h1 : digitB c1 = true
    · by_cases h2 : digitB c2 = true
      · by_cases h3 : digitB c3 = true
        · by_cases h4 : digitB c4 = true
          · rw [if_pos (by simp [h1, h2, h3, h4])]
            simp only [List.takeWhile_cons, h1, h2, h3, h4, if_true]
            rw [if_pos (by simp)]
            simp [List.take_cons]
          · rw [if_neg (by simp [h4])]
            simp only [List.takeWhile_cons, h1, h2, h3, h4, if_true, if_false]
            rw [if_neg (by simp)]
        · rw [if_neg (by simp [h3])]
          simp only [List.takeWhile_cons, h1, h2, h3, if_true, if_false]
          rw [if_neg (by simp)]
      · rw [if_neg (by simp [h2])]
        simp only [List.takeWhile_cons, h1, h2, if_true, if_false]
        rw [if_neg (by simp)]
    · rw [if_neg (by simp [h1])]
      simp only [List.takeWhile_cons, h1, if_false]
      rw [if_neg (by simp)]

theorem digit_ne_slash {a : Char} (ha : digitB a = true) : a ≠ '/' := by
  intro h
  subst h
  exact absurd ha (by decide)

theorem dayK_digit (d : List Char) (a : Char) (r : List Char) (ha : digitB a = true) :
    dayK (d, a :: r) = none := by
  rw [dayK]
  exact slashThen_ne (digit_ne_slash ha)

theorem monthK_digit (d1 d : List Char) (a : Char) (r : List Char) (ha : digitB a = true) :
    monthK d1 (d, a :: r) = none := by
  rw [monthK]
  exact slashThen_ne (digit_ne_slash ha)

theorem dateCore_eq (l : List Char) : dateCore l = claimDateCore l := by
  rw [dateCore, claimDateCore, d12_findSome_eq dayK (fun d a r => dayK_digit d a r) l]
  by_cases hc1 : 1 ≤ (l.takeWhile digitB).length ∧ (l.takeWhile digitB).length ≤ 2
  · rw [if_pos hc1, if_pos hc1, dayK]
    apply slashThen_congr
    intro r2
    rw [d12_findSome_eq (monthK (l.takeWhile digitB))
        (fun d a r => monthK_digit (l.takeWhile digitB) d a r) r2]
    by_cases hc2 : 1 ≤ (r2.takeWhile digitB).length ∧ (r2.takeWhile digitB).length ≤ 2
    · rw [if_pos hc2, if_pos hc2, monthK]
      apply slashThen_congr
      intro r4
      rw [year4_eq r4]
      by_cases h4 : 4 ≤ (r4.takeWhile digitB).length
      · rw [if_pos h4, if_pos h4]
      · rw [if_neg h4, if_neg h4]
    · rw [if_neg hc2, if_neg hc2]
  · rw [if_neg hc1, if_neg hc1]

theorem tryDateAt_eq (labels : List (List Char)) (l : List Char) :
    tryDateAt labels l = claimDateAt labels l := by
  rw [tryDateAt, claimDateAt]
  have h :
      (fun lab =>
          match matchLabelCI lab l with
          | some r0 => dateCore ((colonOpt r0).dropWhile pySpace)
          | none => none) =
        fun lab =>
          match matchLabelCI lab l with
          | some r0 => claimDateCore ((colonOpt r0).dropWhile pySpace)
          | none => none := by
    funext lab
    cases hm : matchLabelCI lab l with
    | none => rfl
    | some r0 =>
      dsimp only
      exact dateCore_eq _
  rw [h]

theorem digit_not_space {c : Char} (h : digitB c = true) : pySpace c = false := by
  rw [digitB] at h
  simp only [Bool.and_eq_true, decide_eq_true_eq] at h
  obtain ⟨h0, h9⟩ := h
  cases hs : pySpace c with
  | false => rfl
  | true =>
    rw [pySpace] at hs
    simp only [Bool.or_eq_true, Bool.and_eq_true, beq_iff_eq, decide_eq_true_eq] at hs
    rcases hs with
      (((((((((((⟨ha, hb⟩ | rfl) | ⟨ha, hb⟩) | rfl) | rfl) | rfl) | ⟨ha, hb⟩) | rfl) |
                rfl) |
              rfl) |
            rfl) |
          rfl) <;>
      first
        | exact absurd h0 (by decide)
        | exact absurd h9 (by decide)
        | exact absurd (le_trans h0 hb) (by decide)
        | exact absurd (le_trans ha h9) (by decide)

theorem claimDateCore_noWs {x : List Char} {t : List Char} (h : claimDateCore x = some t) :
    ∀ c ∈ t, pySpace c = false := by
  rw [claimDateCore] at h
  split at h
  · obtain ⟨r2, hx, h⟩ := slashThen_some h
    split at h
    · obtain ⟨r4, hr2, h⟩ := slashThen_some h
      split at h
      · simp only [Option.some.injEq] at h
        subst h
        intro c hc
        rcases List.mem_append.mp hc with hc | hc
        · rcases List.mem_append.mp hc with hc | hc
          · exact digit_not_space (List.mem_takeWhile_imp hc)
          · rcases List.mem_cons.mp hc with rfl | hc
            · rfl
            · exact digit_not_space (List.mem_takeWhile_imp hc)
        · rcases List.mem_cons.mp hc with rfl | hc
          · rfl
          · exact digit_not_space (List.mem_takeWhile_imp (List.mem_of_mem_take hc))
      · cases h
    · cases h
  · cases h

theorem claimDateAt_noWs {labels : List (List Char)} {l : List Char} {t : List Char}
    (h : claimDateAt labels l = some t) : ∀ c ∈ t, pySpace c = false := by
  rw [claimDateAt] at h
  obtain ⟨lab, _, hlab⟩ := List.exists_of_findSome?_eq_some h
  cases hm : matchLabelCI lab l with
  | none => rw [hm] at hlab; cases hlab
  | some r0 =>
    rw [hm] at hlab
    exact claimDateCore_noWs hlab

theorem strip_id_of_noWs {t : List Char} (h : ∀ c ∈ t, pySpace c = false) :
    pyStripL t = t := by
  have h1 : t.dropWhile pySpace = t := by
    cases t with
    | nil => rfl
    | cons c cs =>
      rw [List.dropWhile_cons, h c (List.mem_cons_self c cs)]
      simp
  have h2 : t.reverse.dropWhile pySpace = t.reverse := by
    cases hr : t.reverse with
    | nil => rfl
    | cons c cs =>
      have hc : c ∈ t := by
        rw [← List.mem_reverse, hr]
        exact List.mem_cons_self c cs
      rw [List.dropWhile_cons, h c hc]
      simp
  rw [pyStripL, h1, h2, List.reverse_reverse]

theorem date_field_eq (labels : List String) (s : String) :
    (match re_search_date labels s with
      | some g => pyStrip g
      | none => "") = claimFirstDate labels s := by
  rw [re_search_date, claimFirstDate]
  have hf : tryDateAt (labels.map String.data) = claimDateAt (labels.map String.data) :=
    funext fun l => tryDateAt_eq _ l
  rw [hf, searchScan_eq]
  cases hh :
      ((List.range (s.data.length + 1)).filterMap fun i =>
          claimDateAt (labels.map String.data) (s.data.drop i)).head? with
  | none => rfl
  | some t =>
    dsimp only
    obtain ⟨i, _, hi⟩ := List.mem_filterMap.mp (head?_mem hh)
    have hWs := claimDateAt_noWs hi
    show String.mk (pyStripL t) = String.mk t
    rw [strip_id_of_noWs hWs]

/-- C2: the program never sets the claimed fields.  The extraction loop stores
    each capture under the key of the patterns dict, and for the dates those
    keys are start_date and end_date, which are NOT the initialized result keys
    project_start_date and project_end_date; so whenever the Field Extractor
    returns a result both claimed fields are the empty string, while the token
    of the first case-insensitive label-and-date match (when one exists) sits
    under the new, misplaced keys. -/
theorem c2_project_dates_stay_empty (s : String) (pm : List PageRecord) (r : AnalysisResult)
    (h : parse_gemini_response (some s) pm = Except.ok (some r)) :
    r.project_start_date = "" ∧ r.project_end_date = "" ∧
      (r.start_date).getD "" = claimFirstDate ["Start Date", "Commencement"] s ∧
      (r.end_date).getD "" = claimFirstDate ["End Date", "Completion"] s := by
  rw [parse_ok_fields s pm r h]
  refine ⟨rfl, rfl, ?_, ?_⟩
  · rw [← date_field_eq ["Start Date", "Commencement"] s]
    cases re_search_date ["Start Date", "Commencement"] s <;> rfl
  · rw [← date_field_eq ["End Date", "Completion"] s]
    cases re_search_date ["End Date", "Completion"] s <;> rfl

/-- C2 witness: a reply carrying both dates; the claimed project fields stay
    empty while the misplaced keys carry the matched tokens. -/
theorem c2_project_dates_stay_empty_witness :
    ("" : String) = "" ∧ ("" : String) = "" ∧
      (some "1/2/2024").getD "" =
        claimFirstDate ["Start Date", "Commencement"]
          "Start Date: 1/2/2024\nEnd Date: 3/4/2025" ∧
      (some "3/4/2025").getD "" =
        claimFirstDate ["End Date", "Completion"]
          "Start Date: 1/2/2024\nEnd Date: 3/4/2025" :=
  c2_project_dates_stay_empty "Start Date: 1/2/2024\nEnd Date: 3/4/2025" []
    ⟨"", "", "", "", [], "", "", some "1/2/2024", some "3/4/2025"⟩ (by rfl)
